import Mathlib

/-!
Verification of the qarbon-query WASM emissions engine
(`src/packages/@qarbon/emissions/src/optimizations/wasm/src/lib.rs`).

The Rust source computes over `f64`. None of the properties verified here
depend on rounding of finite arithmetic, so `f64` is modelled by the type
`F64` below: the special values NaN, +infinity and -infinity are explicit
constructors, finite values carry an exact rational, and the arithmetic and
comparison operations follow the IEEE-754 rules on the special values
(NaN propagation, `NaN > x` is false, `inf + (-inf)` is NaN, and so on)
while finite arithmetic is exact. Signed zero is conflated with zero, which
is invisible to every property below (IEEE `==` identifies the two zeros).

Slices `&[f64]` become `List F64`; an `&mut [f64]` output slice becomes an
explicit argument whose updated contents are returned, so each fallible
kernel returns `Bool × List F64` (the Rust boolean plus the final contents
of the output buffer; on the early `return false` path the buffer is
returned untouched, exactly as the Rust code leaves it).
-/

/-- Model of an IEEE-754 double as used by the engine: NaN, the two
infinities, and exact finite values. -/
inductive F64 where
  | nan : F64
  | inf : F64
  | negInf : F64
  | finite : ℚ → F64
deriving DecidableEq, Repr

namespace F64

/-- IEEE multiplication on the model: NaN propagates, `inf * 0` is NaN,
infinities follow the sign rule, finite multiplication is exact. -/
def mul : F64 → F64 → F64
  | nan, _ => nan
  | _, nan => nan
  | inf, inf => inf
  | inf, negInf => negInf
  | negInf, inf => negInf
  | negInf, negInf => inf
  | inf, finite q => if 0 < q then inf else if q < 0 then negInf else nan
  | finite q, inf => if 0 < q then inf else if q < 0 then negInf else nan
  | negInf, finite q => if 0 < q then negInf else if q < 0 then inf else nan
  | finite q, negInf => if 0 < q then negInf else if q < 0 then inf else nan
  | finite a, finite b => finite (a * b)

/-- IEEE addition on the model: NaN propagates, `inf + (-inf)` is NaN,
an infinity absorbs finite addends, finite addition is exact. -/
def add : F64 → F64 → F64
  | nan, _ => nan
  | _, nan => nan
  | inf, negInf => nan
  | negInf, inf => nan
  | inf, _ => inf
  | _, inf => inf
  | negInf, _ => negInf
  | _, negInf => negInf
  | finite a, finite b => finite (a + b)

/-- IEEE division on the model: NaN propagates, `0/0` and `inf/inf` are
NaN, finite/0 is a signed infinity, finite division is exact. -/
def div : F64 → F64 → F64
  | nan, _ => nan
  | _, nan => nan
  | inf, inf => nan
  | inf, negInf => nan
  | negInf, inf => nan
  | negInf, negInf => nan
  | inf, finite q => if q < 0 then negInf else inf
  | negInf, finite q => if q < 0 then inf else negInf
  | finite _, inf => finite 0
  | finite _, negInf => finite 0
  | finite a, finite b =>
    if b = 0 then (if a = 0 then nan else if 0 < a then inf else negInf)
    else finite (a / b)

/-- IEEE `>` comparison: any comparison with NaN is false. -/
def gt : F64 → F64 → Bool
  | nan, _ => false
  | _, nan => false
  | inf, inf => false
  | inf, _ => true
  | negInf, _ => false
  | finite _, inf => false
  | finite _, negInf => true
  | finite a, finite b => decide (b < a)

/-- IEEE `<` comparison, derived from `gt` by swapping the arguments. -/
def lt (a b : F64) : Bool := gt b a

/-- Model of Rust `f64::min`: if exactly one argument is NaN the other is
returned, otherwise the smaller argument. -/
def fmin : F64 → F64 → F64
  | nan, b => b
  | a, nan => a
  | negInf, _ => negInf
  | _, negInf => negInf
  | inf, b => b
  | a, inf => a
  | finite a, finite b => finite (min a b)

/-- Model of Rust `f64::max`: if exactly one argument is NaN the other is
returned, otherwise the larger argument. -/
def fmax : F64 → F64 → F64
  | nan, b => b
  | a, nan => a
  | inf, _ => inf
  | _, inf => inf
  | negInf, b => b
  | a, negInf => a
  | finite a, finite b => finite (max a b)

end F64

/-- The write loop shared by every elementwise kernel: `setLoop g n res`
performs `res[i] = g i` for `i = 0, 1, ..., n-1`, mirroring the Rust
`for i in 0..n` loops that store one output element per index. -/
def setLoop (g : Nat → F64) : Nat → List F64 → List F64
  | 0, res => res
  | n + 1, res => (setLoop g n res).set n (g n)

/-- `calculate_emissions_batch` from lib.rs: length-validate, then
`results[i] = values[i] * factors[i]`; returns the success boolean and the
final contents of `results`. -/
def calculate_emissions_batch (values factors results : List F64) :
    Bool × List F64 :=
  if values.length ≠ factors.length ∨ values.length ≠ results.length then
    (false, results)
  else
    (true, setLoop
      (fun i => F64.mul (values.getD i F64.nan) (factors.getD i F64.nan))
      values.length results)

/-- `calculate_transport_emissions` from lib.rs: identical guard and
per-index formula `distances[i] * factors[i]`. -/
def calculate_transport_emissions (distances factors results : List F64) :
    Bool × List F64 :=
  if distances.length ≠ factors.length ∨ distances.length ≠ results.length then
    (false, results)
  else
    (true, setLoop
      (fun i => F64.mul (distances.getD i F64.nan) (factors.getD i F64.nan))
      distances.length results)

/-- `calculate_energy_emissions` from lib.rs: identical guard and
per-index formula `consumption[i] * factors[i]`. -/
def calculate_energy_emissions (consumption factors results : List F64) :
    Bool × List F64 :=
  if consumption.length ≠ factors.length ∨ consumption.length ≠ results.length then
    (false, results)
  else
    (true, setLoop
      (fun i => F64.mul (consumption.getD i F64.nan) (factors.getD i F64.nan))
      consumption.length results)

/-- `calculate_ai_emissions` from lib.rs: validate the four lengths, then
per index write `tokens[i] * co2_per_token[i]` when `tokens[i] > 0.0`,
otherwise `co2_per_query[i]`. -/
def calculate_ai_emissions (tokens co2_per_token co2_per_query results : List F64) :
    Bool × List F64 :=
  if tokens.length ≠ co2_per_token.length ∨ tokens.length ≠ co2_per_query.length
      ∨ tokens.length ≠ results.length then
    (false, results)
  else
    (true, setLoop
      (fun i =>
        if F64.gt (tokens.getD i F64.nan) (F64.finite 0) then
          F64.mul (tokens.getD i F64.nan) (co2_per_token.getD i F64.nan)
        else
          co2_per_query.getD i F64.nan)
      tokens.length results)

/-- `vector_sum` from lib.rs: `values.iter().sum()`, a left fold of IEEE
addition starting from `0.0`. -/
def vector_sum (values : List F64) : F64 :=
  values.foldl F64.add (F64.finite 0)

/-- `vector_average` from lib.rs: explicit empty check returning `0.0`
before dividing the sum by the length. -/
def vector_average (values : List F64) : F64 :=
  if values.length = 0 then F64.finite 0
  else F64.div (vector_sum values) (F64.finite (values.length : ℚ))

/-- `vector_min` from lib.rs: fold of `f64::min` seeded at `+infinity`. -/
def vector_min (values : List F64) : F64 :=
  values.foldl F64.fmin F64.inf

/-- `vector_max` from lib.rs: fold of `f64::max` seeded at `-infinity`. -/
def vector_max (values : List F64) : F64 :=
  values.foldl F64.fmax F64.negInf

/-- `vector_scale` from lib.rs: in-place `*value *= factor` over the
buffer; the updated buffer contents are returned. -/
def vector_scale (values : List F64) (factor : F64) : List F64 :=
  values.map (fun value => F64.mul value factor)

/-- `vector_add` from lib.rs: length-validate, then
`result[i] = a[i] + b[i]`. -/
def vector_add (a b result : List F64) : Bool × List F64 :=
  if a.length ≠ b.length ∨ a.length ≠ result.length then
    (false, result)
  else
    (true, setLoop
      (fun i => F64.add (a.getD i F64.nan) (b.getD i F64.nan))
      a.length result)

/-- `vector_multiply` from lib.rs: length-validate, then
`result[i] = a[i] * b[i]`. -/
def vector_multiply (a b result : List F64) : Bool × List F64 :=
  if a.length ≠ b.length ∨ a.length ≠ result.length then
    (false, result)
  else
    (true, setLoop
      (fun i => F64.mul (a.getD i F64.nan) (b.getD i F64.nan))
      a.length result)

/-- The two running accumulators of `weighted_average` after the first `n`
loop iterations: `(weighted_sum, weight_sum)`, both started at `0.0`, with
`weighted_sum += values[i] * weights[i]` and `weight_sum += weights[i]`
per iteration. -/
def weighted_sums (values weights : List F64) : Nat → F64 × F64
  | 0 => (F64.finite 0, F64.finite 0)
  | n + 1 =>
    let p := weighted_sums values weights n
    (F64.add p.1 (F64.mul (values.getD n F64.nan) (weights.getD n F64.nan)),
     F64.add p.2 (weights.getD n F64.nan))

/-- `weighted_average` from lib.rs: `0.0` on length mismatch or empty
input; otherwise accumulate the two sums and divide only under the guard
`weight_sum > 0.0`, returning `0.0` when the guard fails. -/
def weighted_average (values weights : List F64) : F64 :=
  if values.length ≠ weights.length ∨ values.length = 0 then F64.finite 0
  else
    let p := weighted_sums values weights values.length
    if F64.gt p.2 (F64.finite 0) then F64.div p.1 p.2 else F64.finite 0

/-- Linear memory as seen across the WASM boundary: one `f64` cell per
address. -/
abbrev Mem := Nat → F64

/-- The engine's allocation state: the linear memory plus the next free
address handed out by the underlying allocator. -/
structure Arena where
  mem : Mem
  nextFree : Nat

/-- `allocate` from lib.rs: reserve capacity for `size` doubles and hand
the raw pointer to the host (the `Vec` is forgotten, so the storage stays
live). Modelled as bumping the next-free address. -/
def allocate (a : Arena) (size : Nat) : Arena × Nat :=
  ({ a with nextFree := a.nextFree + size }, a.nextFree)

/-- `deallocate` from lib.rs: rebuild the `Vec` from the raw parts and
drop it. The model releases no observable state. -/
def deallocate (a : Arena) (_ptr : Nat) (_size : Nat) : Arena := a

/-- Modelled from the spec: host-side plain storage of one double into the
shared linear memory (`store`), which the Rust source does not contain —
the host writes through the pointer returned by `allocate` directly. -/
def store (m : Mem) (addr : Nat) (v : F64) : Mem :=
  fun a => if a = addr then v else m a

/-- Modelled from the spec: the host writing `vs` consecutively starting
at `addr`. -/
def storeN : Mem → Nat → List F64 → Mem
  | m, _, [] => m
  | m, addr, v :: vs => storeN (store m addr v) (addr + 1) vs

/-- Modelled from the spec: the host reading `n` consecutive doubles
starting at `addr`. -/
def loadN (m : Mem) : Nat → Nat → List F64
  | _, 0 => []
  | addr, n + 1 => m addr :: loadN m (addr + 1) n

/-! ## Helper lemmas -/

theorem setLoop_length (g : Nat → F64) (n : Nat) (res : List F64) :
    (setLoop g n res).length = res.length := by
  induction n with
  | zero => rfl
  | succ n ih => simp [setLoop, List.length_set, ih]

theorem setLoop_getD (g : Nat → F64) (res : List F64) :
    ∀ n j, n ≤ res.length → j < n →
      (setLoop g n res).getD j F64.nan = g j := by
  intro n
  induction n with
  | zero => intro j _ hj; omega
  | succ n ih =>
    intro j hn hj
    have hlen : (setLoop g n res).length = res.length := setLoop_length g n res
    by_cases h : j = n
    · subst h
      simp only [setLoop, List.getD_eq_getElem?_getD]
      rw [List.getElem?_set_self (by omega)]
      rfl
    · simp only [setLoop, List.getD_eq_getElem?_getD]
      rw [List.getElem?_set_ne (by omega : n ≠ j), ← List.getD_eq_getElem?_getD]
      exact ih j (by omega) (by omega)

theorem setLoop_getD_frozen (g : Nat → F64) (res : List F64) :
    ∀ n j, n ≤ j → (setLoop g n res).getD j F64.nan = res.getD j F64.nan := by
  intro n
  induction n with
  | zero => intro j _; rfl
  | succ n ih =>
    intro j hj
    simp only [setLoop, List.getD_eq_getElem?_getD]
    rw [List.getElem?_set_ne (by omega : n ≠ j)]
    simp only [← List.getD_eq_getElem?_getD]
    exact ih j (by omega)

theorem F64.gt_asymm : ∀ a b : F64, F64.gt a b = true → F64.gt b a = false := by
  intro a b h
  cases a <;> cases b <;>
    simp_all only [F64.gt, decide_eq_true_eq, decide_eq_false_iff_not]
  exact lt_asymm h

/-! ## Claim theorems -/

/-- C1: for equal-length `values`, `factors` and `results`,
`calculate_emissions_batch` returns `true` and writes
`results[i] = values[i] * factors[i]` at every index `i < len`. -/
theorem calculate_emissions_batch_spec (values factors results : List F64)
    (hf : values.length = factors.length)
    (hr : values.length = results.length) :
    (calculate_emissions_batch values factors results).1 = true ∧
    ∀ i, i < values.length →
      (calculate_emissions_batch values factors results).2.getD i F64.nan =
        F64.mul (values.getD i F64.nan) (factors.getD i F64.nan) := by
  have hguard : ¬(values.length ≠ factors.length ∨ values.length ≠ results.length) := by
    push_neg; exact ⟨hf, hr⟩
  unfold calculate_emissions_batch
  rw [if_neg hguard]
  exact ⟨rfl, fun i hi => setLoop_getD _ results values.length i (by omega) hi⟩

/-- Witness for C1 at the spec's example scenario
`values = [100, 200, 300]`, `factors = [0.5, 0.3, 0.2]`. -/
theorem calculate_emissions_batch_spec_witness :
    (calculate_emissions_batch
        [F64.finite 100, F64.finite 200, F64.finite 300]
        [F64.finite (1/2), F64.finite (3/10), F64.finite (1/5)]
        [F64.finite 0, F64.finite 0, F64.finite 0]).1 = true ∧
    (calculate_emissions_batch
        [F64.finite 100, F64.finite 200, F64.finite 300]
        [F64.finite (1/2), F64.finite (3/10), F64.finite (1/5)]
        [F64.finite 0, F64.finite 0, F64.finite 0]).2.getD 2 F64.nan =
      F64.mul (([F64.finite 100, F64.finite 200, F64.finite 300] : List F64).getD 2 F64.nan)
        (([F64.finite (1/2), F64.finite (3/10), F64.finite (1/5)] : List F64).getD 2 F64.nan) := by
  have h := calculate_emissions_batch_spec
    [F64.finite 100, F64.finite 200, F64.finite 300]
    [F64.finite (1/2), F64.finite (3/10), F64.finite (1/5)]
    [F64.finite 0, F64.finite 0, F64.finite 0] rfl rfl
  exact ⟨h.1, h.2 2 (by decide)⟩

/-- C2: every length-validated kernel, handed arrays whose lengths are not
all equal, returns `false` and leaves the output buffer untouched. -/
theorem validated_kernels_mismatch
    (values factors results tokens co2_per_token co2_per_query results2 : List F64) :
    (¬(values.length = factors.length ∧ values.length = results.length) →
      calculate_emissions_batch values factors results = (false, results) ∧
      calculate_transport_emissions values factors results = (false, results) ∧
      calculate_energy_emissions values factors results = (false, results) ∧
      vector_add values factors results = (false, results) ∧
      vector_multiply values factors results = (false, results)) ∧
    (¬(tokens.length = co2_per_token.length ∧ tokens.length = co2_per_query.length ∧
        tokens.length = results2.length) →
      calculate_ai_emissions tokens co2_per_token co2_per_query results2 =
        (false, results2)) := by
  constructor
  · intro h
    have h3 : values.length ≠ factors.length ∨ values.length ≠ results.length := by
      tauto
    refine ⟨?_, ?_, ?_, ?_, ?_⟩
    · unfold calculate_emissions_batch; rw [if_pos h3]
    · unfold calculate_transport_emissions; rw [if_pos h3]
    · unfold calculate_energy_emissions; rw [if_pos h3]
    · unfold vector_add; rw [if_pos h3]
    · unfold vector_multiply; rw [if_pos h3]
  · intro h
    have h4 : tokens.length ≠ co2_per_token.length ∨ tokens.length ≠ co2_per_query.length
        ∨ tokens.length ≠ results2.length := by
      tauto
    unfold calculate_ai_emissions; rw [if_pos h4]

/-- Witness for C2: a one-element input against empty companion arrays is
rejected by all six kernels with the output buffer unchanged. -/
theorem validated_kernels_mismatch_witness :
    (calculate_emissions_batch [F64.finite 1] [] [] = (false, []) ∧
      calculate_transport_emissions [F64.finite 1] [] [] = (false, []) ∧
      calculate_energy_emissions [F64.finite 1] [] [] = (false, []) ∧
      vector_add [F64.finite 1] [] [] = (false, []) ∧
      vector_multiply [F64.finite 1] [] [] = (false, [])) ∧
    calculate_ai_emissions [F64.finite 2] [] [] [] = (false, []) := by
  have h := validated_kernels_mismatch [F64.finite 1] [] [] [F64.finite 2] [] [] []
  exact ⟨h.1 (by decide), h.2 (by decide)⟩

/-- C5: on empty input, `vector_average` returns `0` (via the explicit
short-circuit), `vector_min` returns `+infinity`, `vector_max` returns
`-infinity`, and `weighted_average` returns `0`. -/
theorem empty_input_fallbacks :
    vector_average [] = F64.finite 0 ∧
    vector_min [] = F64.inf ∧
    vector_max [] = F64.negInf ∧
    weighted_average [] [] = F64.finite 0 := by
  refine ⟨?_, rfl, rfl, ?_⟩ <;> decide

/-- C6: `calculate_transport_emissions` and `calculate_energy_emissions`
are extensionally equal to `calculate_emissions_batch`: same boolean and
same output contents on every input. -/
theorem transport_energy_equal_batch (distances factors results : List F64) :
    calculate_transport_emissions distances factors results =
      calculate_emissions_batch distances factors results ∧
    calculate_energy_emissions distances factors results =
      calculate_emissions_batch distances factors results :=
  ⟨rfl, rfl⟩

/-- C3: with equal-length arrays, `calculate_ai_emissions` returns `true`
and writes, at every index, `tokens[i] * co2_per_token[i]` when
`tokens[i] > 0`, and `co2_per_query[i]` when `tokens[i] = 0` or
`tokens[i] < 0` (the branch is strictly greater-than-zero). -/
theorem calculate_ai_emissions_spec
    (tokens co2_per_token co2_per_query results : List F64)
    (h1 : tokens.length = co2_per_token.length)
    (h2 : tokens.length = co2_per_query.length)
    (h3 : tokens.length = results.length) :
    (calculate_ai_emissions tokens co2_per_token co2_per_query results).1 = true ∧
    ∀ i, i < tokens.length →
      (F64.gt (tokens.getD i F64.nan) (F64.finite 0) = true →
        (calculate_ai_emissions tokens co2_per_token co2_per_query results).2.getD
            i F64.nan =
          F64.mul (tokens.getD i F64.nan) (co2_per_token.getD i F64.nan)) ∧
      ((tokens.getD i F64.nan = F64.finite 0 ∨
          F64.lt (tokens.getD i F64.nan) (F64.finite 0) = true) →
        (calculate_ai_emissions tokens co2_per_token co2_per_query results).2.getD
            i F64.nan =
          co2_per_query.getD i F64.nan) := by
  have hguard : ¬(tokens.length ≠ co2_per_token.length
      ∨ tokens.length ≠ co2_per_query.length ∨ tokens.length ≠ results.length) := by
    push_neg; exact ⟨h1, h2, h3⟩
  have hval : ∀ i, i < tokens.length →
      (calculate_ai_emissions tokens co2_per_token co2_per_query results).2.getD
          i F64.nan =
        (if F64.gt (tokens.getD i F64.nan) (F64.finite 0) then
          F64.mul (tokens.getD i F64.nan) (co2_per_token.getD i F64.nan)
        else
          co2_per_query.getD i F64.nan) := by
    intro i hi
    unfold calculate_ai_emissions
    rw [if_neg hguard]
    exact setLoop_getD _ results tokens.length i (by omega) hi
  refine ⟨?_, fun i hi => ⟨fun hgt => ?_, fun hcase => ?_⟩⟩
  · unfold calculate_ai_emissions
    rw [if_neg hguard]
  · rw [hval i hi, if_pos hgt]
  · have hfalse : F64.gt (tokens.getD i F64.nan) (F64.finite 0) = false := by
      rcases hcase with hz | hlt
      · rw [hz]; decide
      · have hlt' : F64.gt (F64.finite 0) (tokens.getD i F64.nan) = true := hlt
        exact F64.gt_asymm _ _ hlt'
    rw [hval i hi, hfalse]
    simp

/-- Witness for C3: tokens `[5, 0, -2]` with rate `2` and flat cost `7`
exercise the positive, zero and negative branches. -/
theorem calculate_ai_emissions_spec_witness :
    (calculate_ai_emissions
        [F64.finite 5, F64.finite 0, F64.finite (-2)]
        [F64.finite 2, F64.finite 2, F64.finite 2]
        [F64.finite 7, F64.finite 7, F64.finite 7]
        [F64.finite 0, F64.finite 0, F64.finite 0]).1 = true ∧
    (calculate_ai_emissions
        [F64.finite 5, F64.finite 0, F64.finite (-2)]
        [F64.finite 2, F64.finite 2, F64.finite 2]
        [F64.finite 7, F64.finite 7, F64.finite 7]
        [F64.finite 0, F64.finite 0, F64.finite 0]).2.getD 0 F64.nan =
      F64.mul (([F64.finite 5, F64.finite 0, F64.finite (-2)] : List F64).getD 0 F64.nan)
        (([F64.finite 2, F64.finite 2, F64.finite 2] : List F64).getD 0 F64.nan) ∧
    (calculate_ai_emissions
        [F64.finite 5, F64.finite 0, F64.finite (-2)]
        [F64.finite 2, F64.finite 2, F64.finite 2]
        [F64.finite 7, F64.finite 7, F64.finite 7]
        [F64.finite 0, F64.finite 0, F64.finite 0]).2.getD 1 F64.nan =
      ([F64.finite 7, F64.finite 7, F64.finite 7] : List F64).getD 1 F64.nan ∧
    (calculate_ai_emissions
        [F64.finite 5, F64.finite 0, F64.finite (-2)]
        [F64.finite 2, F64.finite 2, F64.finite 2]
        [F64.finite 7, F64.finite 7, F64.finite 7]
        [F64.finite 0, F64.finite 0, F64.finite 0]).2.getD 2 F64.nan =
      ([F64.finite 7, F64.finite 7, F64.finite 7] : List F64).getD 2 F64.nan := by
  have h := calculate_ai_emissions_spec
    [F64.finite 5, F64.finite 0, F64.finite (-2)]
    [F64.finite 2, F64.finite 2, F64.finite 2]
    [F64.finite 7, F64.finite 7, F64.finite 7]
    [F64.finite 0, F64.finite 0, F64.finite 0] rfl rfl rfl
  exact ⟨h.1,
    (h.2 0 (by decide)).1 (by decide),
    (h.2 1 (by decide)).2 (Or.inl (by decide)),
    (h.2 2 (by decide)).2 (Or.inr (by decide))⟩

/-- C9: a NaN token count fails the `tokens[i] > 0.0` test, so
`calculate_ai_emissions` writes the flat per-query cost at that index,
the same as zero and negative token counts. -/
theorem calculate_ai_emissions_nan
    (tokens co2_per_token co2_per_query results : List F64)
    (h1 : tokens.length = co2_per_token.length)
    (h2 : tokens.length = co2_per_query.length)
    (h3 : tokens.length = results.length)
    (i : Nat) (hi : i < tokens.length)
    (hnan : tokens.getD i F64.nan = F64.nan) :
    (calculate_ai_emissions tokens co2_per_token co2_per_query results).2.getD
        i F64.nan =
      co2_per_query.getD i F64.nan ∧
    F64.gt (tokens.getD i F64.nan) (F64.finite 0) = false := by
  have hguard : ¬(tokens.length ≠ co2_per_token.length
      ∨ tokens.length ≠ co2_per_query.length ∨ tokens.length ≠ results.length) := by
    push_neg; exact ⟨h1, h2, h3⟩
  have hgt : F64.gt (tokens.getD i F64.nan) (F64.finite 0) = false := by
    rw [hnan]; rfl
  constructor
  · have hval :
        (calculate_ai_emissions tokens co2_per_token co2_per_query results).2.getD
            i F64.nan =
          (if F64.gt (tokens.getD i F64.nan) (F64.finite 0) then
            F64.mul (tokens.getD i F64.nan) (co2_per_token.getD i F64.nan)
          else
            co2_per_query.getD i F64.nan) := by
      unfold calculate_ai_emissions
      rw [if_neg hguard]
      exact setLoop_getD _ results tokens.length i (by omega) hi
    rw [hval, hgt]
    simp
  · exact hgt

/-- Witness for C9: a single NaN token with flat cost `5`. -/
theorem calculate_ai_emissions_nan_witness :
    (calculate_ai_emissions [F64.nan] [F64.finite 2] [F64.finite 5]
        [F64.finite 0]).2.getD 0 F64.nan =
      ([F64.finite 5] : List F64).getD 0 F64.nan ∧
    F64.gt (([F64.nan] : List F64).getD 0 F64.nan) (F64.finite 0) = false :=
  calculate_ai_emissions_nan [F64.nan] [F64.finite 2] [F64.finite 5]
    [F64.finite 0] rfl rfl rfl 0 (by decide) rfl

/-- C4: with equal-length non-empty arrays whose weights are all zero,
`weighted_average` returns `0`; the `weight_sum > 0.0` guard is false, so
the division is never reached and the result is neither NaN nor
infinite. -/
theorem weighted_average_zero_weights (values weights : List F64)
    (hlen : values.length = weights.length)
    (hne : values.length ≠ 0)
    (hzero : ∀ i, i < weights.length → weights.getD i F64.nan = F64.finite 0) :
    weighted_average values weights = F64.finite 0 ∧
    F64.gt (weighted_sums values weights values.length).2 (F64.finite 0) = false ∧
    weighted_average values weights ≠ F64.nan ∧
    weighted_average values weights ≠ F64.inf ∧
    weighted_average values weights ≠ F64.negInf := by
  have hsum : ∀ n, n ≤ values.length →
      (weighted_sums values weights n).2 = F64.finite 0 := by
    intro n
    induction n with
    | zero => intro _; rfl
    | succ n ih =>
      intro hn
      have hw : weights.getD n F64.nan = F64.finite 0 := hzero n (by omega)
      show F64.add (weighted_sums values weights n).2 (weights.getD n F64.nan) =
        F64.finite 0
      rw [ih (by omega), hw]
      show F64.finite (0 + 0) = F64.finite 0
      norm_num
  have hgt : F64.gt (weighted_sums values weights values.length).2
      (F64.finite 0) = false := by
    rw [hsum values.length le_rfl]
    decide
  have hguard : ¬(values.length ≠ weights.length ∨ values.length = 0) := by
    push_neg; exact ⟨hlen, hne⟩
  have hres : weighted_average values weights = F64.finite 0 := by
    unfold weighted_average
    rw [if_neg hguard]
    show (if F64.gt (weighted_sums values weights values.length).2 (F64.finite 0)
      then _ else _) = _
    rw [hgt]
    simp
  refine ⟨hres, hgt, ?_, ?_, ?_⟩ <;> rw [hres] <;> simp

/-- Witness for C4 at `values = [1, 2]`, `weights = [0, 0]`. -/
theorem weighted_average_zero_weights_witness :
    weighted_average [F64.finite 1, F64.finite 2] [F64.finite 0, F64.finite 0] =
      F64.finite 0 ∧
    F64.gt (weighted_sums [F64.finite 1, F64.finite 2]
        [F64.finite 0, F64.finite 0]
        ([F64.finite 1, F64.finite 2] : List F64).length).2 (F64.finite 0) = false ∧
    weighted_average [F64.finite 1, F64.finite 2] [F64.finite 0, F64.finite 0] ≠
      F64.nan ∧
    weighted_average [F64.finite 1, F64.finite 2] [F64.finite 0, F64.finite 0] ≠
      F64.inf ∧
    weighted_average [F64.finite 1, F64.finite 2] [F64.finite 0, F64.finite 0] ≠
      F64.negInf :=
  weighted_average_zero_weights [F64.finite 1, F64.finite 2]
    [F64.finite 0, F64.finite 0] rfl (by decide) (by decide)

/-- C10: `weighted_average` returns `0` whenever the accumulated weight
sum is negative or zero, because the division branch is guarded by
`weight_sum > 0.0`. -/
theorem weighted_average_nonpositive_sum (values weights : List F64)
    (hlen : values.length = weights.length)
    (hne : values.length ≠ 0)
    (hnp : F64.lt (weighted_sums values weights values.length).2 (F64.finite 0) = true
      ∨ (weighted_sums values weights values.length).2 = F64.finite 0) :
    weighted_average values weights = F64.finite 0 := by
  have hgt : F64.gt (weighted_sums values weights values.length).2
      (F64.finite 0) = false := by
    rcases hnp with hlt | hz
    · have hlt' : F64.gt (F64.finite 0)
          (weighted_sums values weights values.length).2 = true := hlt
      exact F64.gt_asymm _ _ hlt'
    · rw [hz]; decide
  have hguard : ¬(values.length ≠ weights.length ∨ values.length = 0) := by
    push_neg; exact ⟨hlen, hne⟩
  unfold weighted_average
  rw [if_neg hguard]
  show (if F64.gt (weighted_sums values weights values.length).2 (F64.finite 0)
    then _ else _) = _
  rw [hgt]
  simp

/-- Witness for C10 at `values = [1]`, `weights = [-1]`: the weight sum is
`-1 < 0` and the function silently returns `0`. -/
theorem weighted_average_nonpositive_sum_witness :
    weighted_average [F64.finite 1] [F64.finite (-1)] = F64.finite 0 :=
  weighted_average_nonpositive_sum [F64.finite 1] [F64.finite (-1)]
    rfl (by decide) (Or.inl (by
      show F64.lt (F64.add (F64.finite 0) (F64.finite (-1))) (F64.finite 0) = true
      simp only [F64.add, F64.lt, F64.gt, decide_eq_true_eq]
      norm_num))

/-- C7: `vector_scale` keeps the buffer length, multiplies every element
by the scalar factor in place, always succeeds, and leaves the empty
buffer unchanged. -/
theorem vector_scale_spec (values : List F64) (factor : F64) :
    (vector_scale values factor).length = values.length ∧
    (∀ i, i < values.length →
      (vector_scale values factor).getD i F64.nan =
        F64.mul (values.getD i F64.nan) factor) ∧
    vector_scale [] factor = [] := by
  refine ⟨by simp [vector_scale], fun i hi => ?_, rfl⟩
  have h1 : i < (vector_scale values factor).length := by
    simpa [vector_scale] using hi
  rw [List.getD_eq_getElem?_getD, List.getElem?_eq_getElem h1,
    List.getD_eq_getElem?_getD, List.getElem?_eq_getElem hi]
  simp [vector_scale]

/-- Witness for C7 at `values = [2, 3]`, `factor = 10`. -/
theorem vector_scale_spec_witness :
    (vector_scale [F64.finite 2, F64.finite 3] (F64.finite 10)).length =
      ([F64.finite 2, F64.finite 3] : List F64).length ∧
    (vector_scale [F64.finite 2, F64.finite 3] (F64.finite 10)).getD 1 F64.nan =
      F64.mul (([F64.finite 2, F64.finite 3] : List F64).getD 1 F64.nan)
        (F64.finite 10) ∧
    vector_scale [] (F64.finite 10) = [] := by
  have h := vector_scale_spec [F64.finite 2, F64.finite 3] (F64.finite 10)
  exact ⟨h.1, h.2.1 1 (by decide), (vector_scale_spec [] (F64.finite 10)).2.2⟩

/-- Reading an address below the written range sees the old memory. -/
theorem storeN_eq_of_lt : ∀ (vs : List F64) (m : Mem) (addr b : Nat),
    b < addr → storeN m addr vs b = m b := by
  intro vs
  induction vs with
  | nil => intro m addr b _; rfl
  | cons v vs ih =>
    intro m addr b hb
    show storeN (store m addr v) (addr + 1) vs b = m b
    rw [ih _ _ _ (by omega)]
    show (if b = addr then v else m b) = m b
    rw [if_neg (by omega)]

/-- Reading back a consecutive write returns the written list. -/
theorem loadN_storeN : ∀ (vs : List F64) (m : Mem) (addr : Nat),
    loadN (storeN m addr vs) addr vs.length = vs := by
  intro vs
  induction vs with
  | nil => intro m addr; rfl
  | cons v vs ih =>
    intro m addr
    show storeN (store m addr v) (addr + 1) vs addr ::
        loadN (storeN (store m addr v) (addr + 1) vs) (addr + 1) vs.length =
      v :: vs
    rw [storeN_eq_of_lt vs _ _ _ (by omega), ih]
    show (if addr = addr then v else m addr) :: vs = v :: vs
    rw [if_pos rfl]

/-- C8: writing N doubles into a buffer obtained from `allocate N` and
reading them back before `deallocate` returns exactly the written values:
plain storage performs no transformation. -/
theorem allocate_store_roundtrip (a : Arena) (vs : List F64) :
    loadN (storeN (allocate a vs.length).1.mem (allocate a vs.length).2 vs)
      (allocate a vs.length).2 vs.length = vs :=
  loadN_storeN vs (allocate a vs.length).1.mem (allocate a vs.length).2
